import Mathlib

/-!
Verification of the tinywasm/time dual-backend time library.

The development shallowly embeds the library's format/parse engine, the
process-wide timezone offset register, the day-difference arithmetic and the
cancelable-timer state machine.  Machine integers (`int64`, `int32`, `int16`)
are modelled as `Int` with explicit two's-complement wrapping where the Go
code can overflow.  Host calendar/clock primitives (Go `time`, the JS `Date`
object, the `tinywasm/fmt` conversion helpers) are external collaborators of
the library; where a claim depends on them they are either modelled
concretely from their documented behaviour or kept abstract as function
parameters, as noted on each definition.
-/

set_option maxRecDepth 100000

/-! ## Two's-complement wrapping -/

/-- Wrap an unbounded integer to the `int64` range, as Go arithmetic does on
overflow. -/
def wrap64 (x : ℤ) : ℤ := (x + 2 ^ 63) % 2 ^ 64 - 2 ^ 63

/-- Wrap an unbounded integer to the `int32` range. -/
def wrap32 (x : ℤ) : ℤ := (x + 2 ^ 31) % 2 ^ 32 - 2 ^ 31

/-! ## Timezone Offset Register (offset_back.go)

The register is an `atomic.Int32` holding minutes.  `SetTimeZoneOffset`
stores `hours * 60` converted to `int32`. -/

/-- Value of the register after `SetTimeZoneOffset(hours)`
(`tzOffsetMinutes.Store(int32(hours * 60))`). -/
def tzStore (hours : ℤ) : ℤ := wrap32 (hours * 60)

/-! ## Digits and fixed-width decimal rendering (model of Go `fmt` `%0Nd`) -/

/-- Decimal digit character test. -/
def isDigitCh (c : Char) : Bool := 48 ≤ c.toNat && c.toNat ≤ 57

/-- Numeric value of a digit character. -/
def digitVal (c : Char) : ℕ := c.toNat - 48

/-- Digit character of a value below ten. -/
def digitCh (n : ℕ) : Char := Char.ofNat (48 + n)

/-- Decimal digit list of a natural number, fuel-driven so that it reduces
definitionally; `natDigits` supplies enough fuel. -/
def natDigitsAux : ℕ → ℕ → List Char
  | 0, n => [digitCh (n % 10)]
  | f + 1, n => if n < 10 then [digitCh n] else natDigitsAux f (n / 10) ++ [digitCh (n % 10)]

/-- Decimal digit list of a natural number (no leading zeros). -/
def natDigits (n : ℕ) : List Char := natDigitsAux n n

/-- Exactly-two-digit zero-padded rendering, for values below 100. -/
def pad2 (n : ℕ) : List Char := [digitCh (n / 10), digitCh (n % 10)]

/-- Exactly-four-digit zero-padded rendering, for values below 10000. -/
def pad4 (n : ℕ) : List Char :=
  [digitCh (n / 1000), digitCh (n / 100 % 10), digitCh (n / 10 % 10), digitCh (n % 10)]

/-- Modelled from the spec: the external Go `fmt` `%02d` verb consumed by the
library — minimum width two, zero padding after the sign, no truncation. -/
def fmt02 (n : ℤ) : List Char :=
  if n < 0 then '-' :: natDigits (-n).toNat
  else if n < 10 then ['0', digitCh n.toNat]
  else natDigits n.toNat

/-- Modelled from the spec: the external Go `fmt` `%04d` verb — minimum width
four, zero padding after the sign, no truncation. -/
def fmt04 (n : ℤ) : List Char :=
  if n < 0 then
    '-' :: (List.replicate (3 - (natDigits (-n).toNat).length) '0' ++ natDigits (-n).toNat)
  else if n < 10000 then pad4 n.toNat
  else natDigits n.toNat

/-! ## Proleptic Gregorian calendar

Modelled from the spec: the host calendar primitives ("construct an absolute
instant from calendar fields" / "render calendar fields from an absolute
instant") are out-of-scope black boxes; they are realised here by the
standard proleptic Gregorian calendar over a day count from 0000-01-01. -/

/-- Gregorian leap-year rule. -/
def isLeap (y : ℕ) : Bool := (y % 4 == 0 && !(y % 100 == 0)) || (y % 400 == 0)

/-- Length of a year in days. -/
def daysInYear (leap : Bool) : ℕ := if leap then 366 else 365

/-- Length of month `m` (1-based). -/
def monthLen (leap : Bool) (m : ℕ) : ℕ :=
  match m with
  | 1 => 31 | 2 => if leap then 29 else 28 | 3 => 31 | 4 => 30 | 5 => 31 | 6 => 30
  | 7 => 31 | 8 => 31 | 9 => 30 | 10 => 31 | 11 => 30 | 12 => 31
  | _ => 0

/-- Days in the year strictly before month `m` (1-based). -/
def monthStart (leap : Bool) (m : ℕ) : ℕ :=
  (match m with
   | 1 => 0 | 2 => 31 | 3 => 59 | 4 => 90 | 5 => 120 | 6 => 151
   | 7 => 181 | 8 => 212 | 9 => 243 | 10 => 273 | 11 => 304 | 12 => 334
   | _ => 400) +
  (if leap && decide (3 ≤ m) then 1 else 0)

/-- Leap years among `0, 1, ..., y - 1` (year 0 is a leap year). -/
def numLeaps (y : ℕ) : ℕ := (y + 3) / 4 + (y + 399) / 400 - (y + 99) / 100

/-- Days from 0000-01-01 to the start of year `y`. -/
def daysBeforeYear (y : ℕ) : ℕ := 365 * y + numLeaps y

/-- Day number of 1970-01-01 counted from 0000-01-01. -/
def epochAbsDay : ℕ := 719528

/-- Absolute day number of a calendar date. -/
def dateToAbsDay (y m d : ℕ) : ℕ := daysBeforeYear y + monthStart (isLeap y) m + (d - 1)

/-- UnixNano instant of midnight UTC of a calendar date (unwrapped). -/
def dateToNano (y m d : ℕ) : ℤ := ((dateToAbsDay y m d : ℤ) - epochAbsDay) * 86400000000000

/-- Month and day-of-month (both 1-based) of a zero-based day-of-year. -/
def monthFromDoy (leap : Bool) (doy : ℕ) : ℕ × ℕ :=
  if doy < monthStart leap 2 then (1, doy + 1)
  else if doy < monthStart leap 3 then (2, doy - monthStart leap 2 + 1)
  else if doy < monthStart leap 4 then (3, doy - monthStart leap 3 + 1)
  else if doy < monthStart leap 5 then (4, doy - monthStart leap 4 + 1)
  else if doy < monthStart leap 6 then (5, doy - monthStart leap 5 + 1)
  else if doy < monthStart leap 7 then (6, doy - monthStart leap 6 + 1)
  else if doy < monthStart leap 8 then (7, doy - monthStart leap 7 + 1)
  else if doy < monthStart leap 9 then (8, doy - monthStart leap 8 + 1)
  else if doy < monthStart leap 10 then (9, doy - monthStart leap 9 + 1)
  else if doy < monthStart leap 11 then (10, doy - monthStart leap 10 + 1)
  else if doy < monthStart leap 12 then (11, doy - monthStart leap 11 + 1)
  else (12, doy - monthStart leap 12 + 1)

/-- Year search: advance from `cur` while the next year still starts at or
before day `n`. -/
def findYearGo (n : ℕ) : ℕ → ℕ → ℕ
  | 0, cur => cur
  | f + 1, cur => if daysBeforeYear (cur + 1) ≤ n then findYearGo n f (cur + 1) else cur

/-- Year containing absolute day `n` (initial guess `n / 366`, then a bounded
forward search). -/
def findYear (n : ℕ) : ℕ := findYearGo n 64 (n / 366)

/-- Calendar date of an absolute day number. -/
def fromAbsDay (n : ℕ) : ℕ × ℕ × ℕ :=
  (findYear n, (monthFromDoy (isLeap (findYear n)) (n - daysBeforeYear (findYear n))).1,
   (monthFromDoy (isLeap (findYear n)) (n - daysBeforeYear (findYear n))).2)

/-! ## String scanning helpers -/

/-- Split a character list on a separator, preserving empty fields, as
`strings.Split` does.  Modelled from the spec: the external
`tinywasm/fmt` `Convert(s).Split` capability ("splits on the separator"). -/
def splitSep (sep : Char) : List Char → List (List Char)
  | [] => [[]]
  | c :: cs =>
    if c = sep then [] :: splitSep sep cs
    else
      match splitSep sep cs with
      | [] => [[c]]
      | h :: t => (c :: h) :: t

/-- Value of a non-empty all-digit character list. -/
def parseNatDigits (cs : List Char) : Option ℕ :=
  if cs ≠ [] ∧ cs.all isDigitCh then some (cs.foldl (fun a c => a * 10 + digitVal c) 0)
  else none

/-- Modelled from the spec: the external best-effort string-to-integer parser
(`tinywasm/fmt` `Convert(s).Int()`): an optional leading minus sign followed
by decimal digits; anything else is non-numeric and fails. -/
def convInt : List Char → Option ℤ
  | '-' :: rest => (parseNatDigits rest).map fun n => -(n : ℤ)
  | cs => (parseNatDigits cs).map fun n => (n : ℤ)

/-! ## parseTime (src/unnamed/part_007) -/

/-- Error kinds of `parseTime` (the Go code reports them as formatted error
strings; only their identity matters here). -/
inductive TimeErr | format | hours | minutes
deriving DecidableEq

/-- Shallow embedding of the shared Go helper `parseTime`: split on `:`,
require at least two fields, parse hours into `[0, 23]` and minutes into
`[0, 59]`, return `hours*60 + minutes`; any further fields are untouched. -/
def parseTimeCore (l : List Char) : Except TimeErr ℤ :=
  match splitSep ':' l with
  | p0 :: p1 :: _ =>
    match convInt p0 with
    | none => .error .hours
    | some h =>
      if h < 0 ∨ 23 < h then .error .hours
      else
        match convInt p1 with
        | none => .error .minutes
        | some mi =>
          if mi < 0 ∨ 59 < mi then .error .minutes
          else .ok (h * 60 + mi)
  | _ => .error .format

/-- String-level entry point of `parseTime`. -/
def parseTime (s : String) : Except TimeErr ℤ := parseTimeCore s.data

/-! ## DaysBetween (src/unnamed/part_007, src/api.go) -/

/-- Shallow embedding of `DaysBetweenShared`: `int64` subtraction (wrapping)
followed by Go's truncating integer division by the nanoseconds in a day. -/
def daysBetween (a b : ℤ) : ℤ := Int.tdiv (wrap64 (b - a)) 86400000000000

/-! ## Go `time.Parse("2006-01-02", s)` (consumed by the stdlib backend)

Modelled from the spec: the host "construct an instant from calendar fields"
capability with Go's fixed-width layout: exactly `DDDD-DD-DD` digits and
dashes, month in `[1, 12]`, day within the month's length; anything else is
a parse error. -/

/-- Field extraction and validation of Go `time.Parse` with layout
`2006-01-02`. -/
def goParseDate (s : String) : Option (ℕ × ℕ × ℕ) :=
  match s.data with
  | [y1, y2, y3, y4, s1, m1, m2, s2, d1, d2] =>
    if s1 = '-' ∧ s2 = '-' ∧ ([y1, y2, y3, y4, m1, m2, d1, d2].all isDigitCh) = true then
      let y := digitVal y1 * 1000 + digitVal y2 * 100 + digitVal y3 * 10 + digitVal y4
      let m := digitVal m1 * 10 + digitVal m2
      let d := digitVal d1 * 10 + digitVal d2
      if 1 ≤ m ∧ m ≤ 12 ∧ 1 ≤ d ∧ d ≤ monthLen (isLeap y) m then some (y, m, d) else none
    else none
  | _ => none

/-! ## Format engine -/

/-- Polymorphic value accepted by the `Format*` operations (the Go code uses
an `any` switch over `int64`, `int16` and `string`). -/
inductive GoVal
  | i64 (v : ℤ)
  | i16 (v : ℤ)
  | str (s : String)

/-- Clock fields (hour, minute, second) of a Unix second count, extracted as
Go's `Format` does after the offset shift: nonnegative remainder within the
day. -/
def clockFieldsOfSec (s : ℤ) : ℕ × ℕ × ℕ :=
  let q := (s % 86400).toNat
  (q / 3600, q % 3600 / 60, q % 60)

/-- Render `HH:MM:SS`. -/
def renderHMS (h mi se : ℕ) : String := ⟨pad2 h ++ ':' :: pad2 mi ++ ':' :: pad2 se⟩

/-- Render `YYYY-MM-DD` from natural fields (years below 10000). -/
def renderYMDn (y m d : ℕ) : String := ⟨pad4 y ++ '-' :: pad2 m ++ '-' :: pad2 d⟩

/-- Shallow embedding of the stdlib backend `FormatTime` on an `int64`
UnixNano value with register `reg` (minutes): `time.Unix(0, v)` floors the
nanoseconds into seconds, `applyOffset` adds
`time.Duration(reg) * time.Minute` (an `int64` product, hence wrapped), and
`Format("15:04:05")` renders the clock fields. -/
def formatTimeInt64 (reg : ℤ) (v : ℤ) : String :=
  let dur := wrap64 (reg * 60000000000)
  let c := clockFieldsOfSec (Int.fdiv (v + dur) 1000000000)
  renderHMS c.1 c.2.1 c.2.2

/-- Definition following the specification words for the offset contract:
shift the instant additively by the register's minutes, then extract the
clock fields as if in UTC. -/
def specShiftedTime (reg : ℤ) (v : ℤ) : String :=
  let c := clockFieldsOfSec (Int.fdiv (v + reg * 60000000000) 1000000000)
  renderHMS c.1 c.2.1 c.2.2

/-- Shallow embedding of `FormatDate` on an `int64` UnixNano value: offset
shift as in `formatTimeInt64`, then render `YYYY-MM-DD` of the shifted
instant's calendar date. -/
def formatDateInt64 (reg : ℤ) (v : ℤ) : String :=
  let dur := wrap64 (reg * 60000000000)
  let sec := Int.fdiv (v + dur) 1000000000
  let day := Int.fdiv sec 86400
  let t := fromAbsDay ((epochAbsDay : ℤ) + day).toNat
  renderYMDn t.1 t.2.1 t.2.2

/-- Shape check of the wasm backend: 10 characters with dashes at positions
4 and 7. -/
def shape10 (s : String) : Bool :=
  match s.data with
  | [_, _, _, _, c4, _, _, c7, _, _] => c4 == '-' && c7 == '-'
  | _ => false

/-- Shallow embedding of the stdlib backend `FormatDate` dispatch
(backStlib.go): `int64` renders the date; a string passes through only when
`time.Parse("2006-01-02", v)` succeeds; other types yield `""`. -/
def serverFormatDate (reg : ℤ) : GoVal → String
  | .i64 v => formatDateInt64 reg v
  | .str v => if (goParseDate v).isSome then v else ""
  | .i16 _ => ""

/-- Shallow embedding of the wasm backend `FormatDate` dispatch
(frontWasm.go): `int64` renders the date; a string passes through on the
positional shape check alone; other types yield `""`. -/
def clientFormatDate (reg : ℤ) : GoVal → String
  | .i64 v => formatDateInt64 reg v
  | .str v => if shape10 v then v else ""
  | .i16 _ => ""

/-- Shallow embedding of the `FormatTime` dispatch shared by both backends:
`int64` renders `HH:MM:SS`; `int16` renders `%02d:%02d` of `v/60` and `v%60`
(Go truncating division); a string is first tried as a numeric instant, else
passed through when it contains a colon, else rejected to `""`. -/
def serverFormatTime (reg : ℤ) : GoVal → String
  | .i64 v => formatTimeInt64 reg v
  | .i16 v => ⟨fmt02 (Int.tdiv v 60) ++ ':' :: fmt02 (Int.tmod v 60)⟩
  | .str v =>
    match convInt v.data with
    | some n => formatTimeInt64 reg (wrap64 n)
    | none => if 1 ≤ v.data.count ':' then v else ""

/-! ## ParseDate, both backends -/

/-- Error kinds of the `ParseDate` implementations. -/
inductive DateErr | malformed | invalidDate | corrected
deriving DecidableEq

/-- Shallow embedding of the stdlib backend `ParseDate`:
`time.ParseInLocation("2006-01-02", s, time.UTC)` followed by
`Time.UnixNano()`, whose `int64` multiplication wraps for instants outside
the representable nanosecond range. -/
def parseDateServer (s : String) : Except DateErr ℤ :=
  match goParseDate s with
  | none => .error .malformed
  | some (y, m, d) => .ok (wrap64 (dateToNano y m d))

/-- Shallow embedding of the wasm backend `ParseDate` (frontWasm.go).  The
host `Date` constructor and its UTC field accessors are abstract parameters:
`jsParse` returns `none` for an Invalid Date and otherwise the parsed
millisecond instant; `jsFields` returns the year/month/day the host reports
for an instant.  The code shape-checks, consults the host, re-renders the
reported fields with `%04d-%02d-%02d` and rejects on any mismatch with the
input. -/
def parseDateClient (jsParse : String → Option ℤ) (jsFields : ℤ → ℤ × ℤ × ℤ)
    (s : String) : Except DateErr ℤ :=
  if shape10 s then
    match jsParse s with
    | none => .error .invalidDate
    | some t =>
      if (⟨fmt04 (jsFields t).1 ++ '-' :: fmt02 (jsFields t).2.1 ++
           '-' :: fmt02 (jsFields t).2.2⟩ : String) = s then
        .ok (wrap64 (t * 1000000))
      else .error .corrected
  else .error .malformed

/-- Gregorian leap-year rule on integer years (Euclidean remainders, agreeing
with the natural-number rule on nonnegative years). -/
def isLeapZ (y : ℤ) : Bool := (y % 4 == 0 && !(y % 100 == 0)) || (y % 400 == 0)

/-- A year/month/day triple denotes an existing proleptic Gregorian date. -/
def validYMD (y m d : ℤ) : Prop :=
  1 ≤ m ∧ m ≤ 12 ∧ 1 ≤ d ∧ d ≤ (monthLen (isLeapZ y) m.toNat : ℤ)

/-- Shape `YYYY-MM-DD` with decimal digits in the digit positions. -/
def digitShape10 (s : String) : Prop :=
  match s.data with
  | [y1, y2, y3, y4, s1, m1, m2, s2, d1, d2] =>
    s1 = '-' ∧ s2 = '-' ∧ ([y1, y2, y3, y4, m1, m2, d1, d2].all isDigitCh) = true
  | _ => False

/-! ## Cancelable timer (frontWasm.go `WasmTimer`; backStlib.go wraps the
native scheduler behind the same contract)

The wasm timer is embedded as a state machine: `active` is the struct's
flag, and ghost counters record successful fire transitions, successful
stops, resource releases (`jsFunc.Release()` calls) and callback
invocations.  Modelled from the spec for the stdlib backend: the native
`time.Timer.Stop` presents the same active-flag contract, so one machine
covers both realizations. -/

/-- An external event delivered to a timer: a `Stop()` call or the host
firing the scheduled callback. -/
inductive TEvent | stop | fire

/-- Timer state with ghost counters. -/
structure TimerSt where
  active : Bool
  fired : ℕ
  stopped : ℕ
  released : ℕ
  runs : ℕ
deriving DecidableEq

/-- State of a timer just returned by `AfterFunc`. -/
def timerInit : TimerSt := ⟨true, 0, 0, 0, 0⟩

/-- Embedding of `WasmTimer.Stop`: returns `false` on an inactive timer and
leaves it unchanged; on an active timer it deactivates, releases the wrapped
callback resource once and returns `true`. -/
def timerStop (s : TimerSt) : Bool × TimerSt :=
  if s.active then (true, ⟨false, s.fired, s.stopped + 1, s.released + 1, s.runs⟩)
  else (false, s)

/-- Embedding of `WasmTimer.Fire` for a timer whose callback is non-nil iff
`hasCb`: a no-op on an inactive timer; on an active timer it deactivates,
releases the resource and invokes the callback when present. -/
def timerFire (hasCb : Bool) (s : TimerSt) : TimerSt :=
  if s.active then
    ⟨false, s.fired + 1, s.stopped, s.released + 1, s.runs + (if hasCb then 1 else 0)⟩
  else s

/-- One delivered event. -/
def timerStep (hasCb : Bool) (s : TimerSt) : TEvent → TimerSt
  | .stop => (timerStop s).2
  | .fire => timerFire hasCb s

/-- State after a sequence of events delivered to a fresh timer. -/
def timerRun (hasCb : Bool) (es : List TEvent) : TimerSt :=
  es.foldl (timerStep hasCb) timerInit

/-! ## Nil-callback fire outcome (claim C9) -/

/-- Outcome of letting a backend's fire path run. -/
inductive GoOutcome | ok | nilFuncPanic
deriving DecidableEq

/-- Modelled from the spec: the native scheduler capability
("schedule-callback-after-delay") invokes the supplied callback value when
the delay elapses; by Go language semantics, invoking a nil function value
panics.  The stdlib backend's `AfterFunc` hands its argument to
`time.AfterFunc` unguarded. -/
def serverFireOutcome (cb : Option (Unit → Unit)) : GoOutcome :=
  match cb with
  | some f => let _ := f (); .ok
  | none => .nilFuncPanic

/-- Embedding of the callback invocation inside `WasmTimer.Fire`: the code
guards with `if wt.f != nil`, so a nil callback is skipped. -/
def wasmFireOutcome (cb : Option (Unit → Unit)) : GoOutcome :=
  match cb with
  | some f => let _ := f (); .ok
  | none => .ok

/-! ## Derived predicates used in claim statements -/

/-- The hour field is non-numeric, negative, or above 23. -/
def hourBad (cs : List Char) : Prop :=
  match convInt cs with
  | none => True
  | some h => h < 0 ∨ 23 < h

/-- The minute field is non-numeric, negative, or above 59. -/
def minuteBad (cs : List Char) : Prop :=
  match convInt cs with
  | none => True
  | some mi => mi < 0 ∨ 59 < mi

/-- Numeric year/month/day fields read off a `YYYY-MM-DD`-shaped string. -/
def strFields (s : String) : ℤ × ℤ × ℤ :=
  match s.data with
  | [y1, y2, y3, y4, _, m1, m2, _, d1, d2] =>
    (((digitVal y1 * 1000 + digitVal y2 * 100 + digitVal y3 * 10 + digitVal y4 : ℕ) : ℤ),
     ((digitVal m1 * 10 + digitVal m2 : ℕ) : ℤ),
     ((digitVal d1 * 10 + digitVal d2 : ℕ) : ℤ))
  | _ => (0, 0, 0)

/-- Inductive invariant of the timer state machine. -/
def TimerInv (s : TimerSt) : Prop :=
  (s.active = true → s.fired = 0 ∧ s.stopped = 0 ∧ s.runs = 0 ∧ s.released = 0) ∧
  s.fired + s.stopped ≤ 1 ∧ s.runs ≤ s.fired ∧
  (s.active = false → s.fired + s.stopped = 1 ∧ s.released = 1)

/-! ## Helper lemmas: wrapping -/

theorem wrap64_eq_self {x : ℤ} (h1 : -(2 ^ 63) ≤ x) (h2 : x < 2 ^ 63) : wrap64 x = x := by
  unfold wrap64; omega

theorem wrap64_zero : wrap64 0 = 0 := by decide

theorem wrap64_sub_pow (x : ℤ) : wrap64 (x - 2 ^ 64) = wrap64 x := by
  unfold wrap64; omega

theorem wrap64_add_pow (x : ℤ) : wrap64 (x + 2 ^ 64) = wrap64 x := by
  unfold wrap64; omega

/-! ## Helper lemmas: digits -/

theorem isDigitCh_iff {c : Char} : isDigitCh c = true ↔ 48 ≤ c.toNat ∧ c.toNat ≤ 57 := by
  simp [isDigitCh]

theorem digitCh_digitVal {c : Char} (h : isDigitCh c = true) : digitCh (digitVal c) = c := by
  rw [isDigitCh_iff] at h
  unfold digitCh digitVal
  have h48 : 48 + (c.toNat - 48) = c.toNat := by omega
  rw [h48]
  exact Char.ofNat_toNat c

theorem digitVal_lt {c : Char} (h : isDigitCh c = true) : digitVal c < 10 := by
  rw [isDigitCh_iff] at h; unfold digitVal; omega

theorem digitVal_digitCh : ∀ n < 10, digitVal (digitCh n) = n := by decide

theorem isDigitCh_digitCh : ∀ n < 10, isDigitCh (digitCh n) = true := by decide

theorem not_isDigitCh_dash : isDigitCh '-' = false := by decide

theorem natDigitsAux_small (f n : ℕ) (h : n < 10) : natDigitsAux f n = [digitCh n] := by
  cases f with
  | zero => simp [natDigitsAux, Nat.mod_eq_of_lt h]
  | succ f => simp [natDigitsAux, h]

theorem natDigits_two (n : ℕ) (h1 : 10 ≤ n) (h2 : n < 100) : natDigits n = pad2 n := by
  unfold natDigits
  obtain ⟨f, rfl⟩ : ∃ f, n = f + 1 := ⟨n - 1, by omega⟩
  simp only [natDigitsAux, if_neg (by omega : ¬f + 1 < 10)]
  rw [natDigitsAux_small _ _ (by omega : (f + 1) / 10 < 10)]
  simp [pad2]

theorem natDigitsAux_len (k : ℕ) :
    ∀ f n, n ≤ f → 10 ^ k ≤ n → k + 1 ≤ (natDigitsAux f n).length := by
  induction k with
  | zero =>
    intro f n _ _
    cases f with
    | zero => simp [natDigitsAux]
    | succ f =>
      simp only [natDigitsAux]
      split
      · simp
      · simp
  | succ k ih =>
    intro f n hf h10
    have hp : 10 ^ (k + 1) = 10 ^ k * 10 := pow_succ 10 k
    have h1 : 1 ≤ 10 ^ k := Nat.one_le_pow _ _ (by omega)
    have hn10 : 10 ≤ n := by omega
    cases f with
    | zero => omega
    | succ f =>
      simp only [natDigitsAux, if_neg (by omega : ¬n < 10)]
      have hdiv : 10 ^ k ≤ n / 10 := by omega
      have hfle : n / 10 ≤ f := by omega
      have := ih f (n / 10) hfle hdiv
      simp only [List.length_append, List.length_cons, List.length_nil]
      omega

theorem natDigits_len_ge5 {n : ℕ} (h : 10000 ≤ n) : 5 ≤ (natDigits n).length := by
  have : (10 : ℕ) ^ 4 ≤ n := by norm_num; omega
  exact natDigitsAux_len 4 n n le_rfl this

theorem pad4_digits (a b c d : ℕ) (ha : a < 10) (hb : b < 10) (hc : c < 10) (hd : d < 10) :
    pad4 (a * 1000 + b * 100 + c * 10 + d) = [digitCh a, digitCh b, digitCh c, digitCh d] := by
  have h1 : (a * 1000 + b * 100 + c * 10 + d) / 1000 = a := by omega
  have h2 : (a * 1000 + b * 100 + c * 10 + d) / 100 % 10 = b := by omega
  have h3 : (a * 1000 + b * 100 + c * 10 + d) / 10 % 10 = c := by omega
  have h4 : (a * 1000 + b * 100 + c * 10 + d) % 10 = d := by omega
  simp [pad4, h1, h2, h3, h4]

theorem pad2_digits (a b : ℕ) (ha : a < 10) (hb : b < 10) :
    pad2 (a * 10 + b) = [digitCh a, digitCh b] := by
  have h1 : (a * 10 + b) / 10 = a := by omega
  have h2 : (a * 10 + b) % 10 = b := by omega
  simp [pad2, h1, h2]

theorem fmt02_of_lt100 (n : ℤ) (h0 : 0 ≤ n) (h : n < 100) : fmt02 n = pad2 n.toNat := by
  unfold fmt02
  rw [if_neg (by omega)]
  by_cases h10 : n < 10
  · rw [if_pos h10]
    have hq : n.toNat / 10 = 0 := by omega
    have hr : n.toNat % 10 = n.toNat := by omega
    simp [pad2, hq, hr, digitCh]
  · rw [if_neg h10, natDigits_two n.toNat (by omega) (by omega)]

theorem fmt04_of_lt10000 (n : ℤ) (h0 : 0 ≤ n) (h : n < 10000) : fmt04 n = pad4 n.toNat := by
  unfold fmt04
  rw [if_neg (by omega), if_pos (by omega)]

theorem natDigits_ne_nil (n : ℕ) : natDigits n ≠ [] := by
  unfold natDigits
  cases n with
  | zero => simp [natDigitsAux]
  | succ f =>
    simp only [natDigitsAux]
    split
    · simp
    · simp

theorem fmt02_ne_nil (n : ℤ) : fmt02 n ≠ [] := by
  unfold fmt02
  split
  · simp
  · split
    · simp
    · exact natDigits_ne_nil _

/-! ## Helper lemmas: calendar -/

theorem daysBeforeYear_succ (y : ℕ) :
    daysBeforeYear (y + 1) = daysBeforeYear y + daysInYear (isLeap y) := by
  simp only [daysBeforeYear, numLeaps, daysInYear, isLeap]
  split <;> rename_i h <;>
    simp only [Bool.or_eq_true, Bool.and_eq_true, beq_iff_eq, Bool.not_eq_true',
      beq_eq_false_iff_ne, ne_eq] at h <;> omega

theorem daysBeforeYear_mono {a b : ℕ} (h : a ≤ b) : daysBeforeYear a ≤ daysBeforeYear b := by
  simp only [daysBeforeYear, numLeaps]; omega

theorem daysBeforeYear_lb (y : ℕ) : 365 * y ≤ daysBeforeYear y := by
  simp only [daysBeforeYear, numLeaps]; omega

theorem daysBeforeYear_ub (y : ℕ) : daysBeforeYear y ≤ 366 * y := by
  simp only [daysBeforeYear, numLeaps]; omega

theorem monthLen_le (leap : Bool) (m : ℕ) : monthLen leap m ≤ 31 := by
  unfold monthLen
  split <;> first | omega | (split <;> omega)

/-- Day-of-year construction and inversion, checked over the finite domain of
months and days. -/
theorem doy_inversion :
    ∀ leap : Bool, ∀ m : Fin 13, ∀ d : Fin 32,
      1 ≤ (m : ℕ) → 1 ≤ (d : ℕ) → (d : ℕ) ≤ monthLen leap m →
      monthStart leap m + ((d : ℕ) - 1) < daysInYear leap ∧
      monthFromDoy leap (monthStart leap m + ((d : ℕ) - 1)) = ((m : ℕ), (d : ℕ)) := by
  decide

theorem findYearGo_eq (n y : ℕ) (h1 : daysBeforeYear y ≤ n) (h2 : n < daysBeforeYear (y + 1)) :
    ∀ f cur, cur ≤ y → y - cur ≤ f → findYearGo n f cur = y := by
  intro f
  induction f with
  | zero =>
    intro cur hc hf
    have : cur = y := by omega
    simp [findYearGo, this]
  | succ f ih =>
    intro cur hc hf
    rcases Nat.lt_or_ge cur y with hlt | hge
    · have hcond : daysBeforeYear (cur + 1) ≤ n :=
        le_trans (daysBeforeYear_mono (by omega)) h1
      simp only [findYearGo, if_pos hcond]
      exact ih (cur + 1) (by omega) (by omega)
    · have : cur = y := by omega
      subst this
      simp only [findYearGo, if_neg (by omega : ¬daysBeforeYear (cur + 1) ≤ n)]

theorem findYear_eq (n y : ℕ) (hy : y ≤ 9999) (h1 : daysBeforeYear y ≤ n)
    (h2 : n < daysBeforeYear (y + 1)) : findYear n = y := by
  have hlb := daysBeforeYear_lb y
  have hub := daysBeforeYear_ub (y + 1)
  have hguess_le : n / 366 ≤ y := by omega
  have hgap : y - n / 366 ≤ 64 := by omega
  exact findYearGo_eq n y h1 h2 64 (n / 366) hguess_le hgap

/-- Main calendar inversion: recovering the fields of a valid date from its
absolute day number. -/
theorem fromAbsDay_dateToAbsDay (y m d : ℕ) (hy : y ≤ 9999) (hm1 : 1 ≤ m) (hm : m ≤ 12)
    (hd1 : 1 ≤ d) (hd : d ≤ monthLen (isLeap y) m) :
    fromAbsDay (dateToAbsDay y m d) = (y, m, d) := by
  have hml := monthLen_le (isLeap y) m
  have hdoy := doy_inversion (isLeap y) ⟨m, by omega⟩ ⟨d, by omega⟩ hm1 hd1 hd
  simp only [Fin.val_mk] at hdoy
  have hstart : daysBeforeYear y ≤ dateToAbsDay y m d := by
    unfold dateToAbsDay; omega
  have hend : dateToAbsDay y m d < daysBeforeYear (y + 1) := by
    rw [daysBeforeYear_succ]
    unfold dateToAbsDay
    omega
  have hfy : findYear (dateToAbsDay y m d) = y := findYear_eq _ y hy hstart hend
  unfold fromAbsDay
  rw [hfy]
  have hsub : dateToAbsDay y m d - daysBeforeYear y = monthStart (isLeap y) m + (d - 1) := by
    unfold dateToAbsDay; omega
  rw [hsub, hdoy.2]

/-! ## Helper lemmas: splitting -/

theorem splitSep_ne_nil (sep : Char) (l : List Char) : splitSep sep l ≠ [] := by
  induction l with
  | nil => simp [splitSep]
  | cons c cs ih =>
    simp only [splitSep]
    by_cases h : c = sep
    · simp [h]
    · rw [if_neg h]
      cases hr : splitSep sep cs with
      | nil => simp
      | cons a t => simp

theorem splitSep_no_sep (sep : Char) (l : List Char) (h : sep ∉ l) : splitSep sep l = [l] := by
  induction l with
  | nil => rfl
  | cons c cs ih =>
    simp only [List.mem_cons, not_or] at h
    have hc : ¬c = sep := fun e => h.1 e.symm
    simp only [splitSep, if_neg hc]
    rw [ih h.2]

theorem splitSep_append (sep : Char) (a r : List Char) (h : sep ∉ a) :
    splitSep sep (a ++ sep :: r) = a :: splitSep sep r := by
  induction a with
  | nil => simp [splitSep]
  | cons c cs ih =>
    simp only [List.mem_cons, not_or] at h
    have hc : ¬c = sep := fun e => h.1 e.symm
    simp only [List.cons_append, splitSep, List.append_eq, if_neg hc]
    rw [ih h.2]

/-! ## Helper lemmas: timer state machine -/

theorem timerInv_init : TimerInv timerInit := by
  refine ⟨fun _ => ⟨rfl, rfl, rfl, rfl⟩, by decide, by decide, fun h => by simp [timerInit] at h⟩

theorem timerInv_step (hasCb : Bool) (s : TimerSt) (e : TEvent) (h : TimerInv s) :
    TimerInv (timerStep hasCb s e) := by
  rcases s with ⟨a, f, st, rl, ru⟩
  obtain ⟨h1, h2, h3, h4⟩ := h
  cases a
  · cases e <;> simpa [timerStep, timerStop, timerFire] using ⟨h1, h2, h3, h4⟩
  · obtain ⟨hf, hst, hru, hrl⟩ := h1 rfl
    subst hf; subst hst; subst hru; subst hrl
    cases e <;> cases hasCb <;>
      simp [timerStep, timerStop, timerFire, TimerInv]

theorem timerRun_inv (hasCb : Bool) (es : List TEvent) : TimerInv (timerRun hasCb es) := by
  suffices h : ∀ s, TimerInv s → TimerInv (es.foldl (timerStep hasCb) s) from
    h timerInit timerInv_init
  induction es with
  | nil => intro s hs; exact hs
  | cons e tl ih => intro s hs; exact ih _ (timerInv_step hasCb s e hs)

theorem timerStep_inactive (hasCb : Bool) (s : TimerSt) (h : s.active = false) (e : TEvent) :
    timerStep hasCb s e = s := by
  cases e <;> simp [timerStep, timerStop, timerFire, h]

theorem timerFoldl_inactive (hasCb : Bool) :
    ∀ (l : List TEvent) (s : TimerSt), s.active = false → l.foldl (timerStep hasCb) s = s := by
  intro l
  induction l with
  | nil => intro s _; rfl
  | cons e tl ih =>
    intro s hs
    rw [List.foldl_cons, timerStep_inactive hasCb s hs e]
    exact ih s hs

theorem timerRun_nonempty_inactive (hasCb : Bool) (e : TEvent) (tl : List TEvent) :
    (timerRun hasCb (e :: tl)).active = false := by
  have h0 : (timerStep hasCb timerInit e).active = false := by
    cases e <;> simp [timerStep, timerStop, timerFire, timerInit]
  unfold timerRun
  rw [List.foldl_cons, timerFoldl_inactive hasCb tl _ h0]
  exact h0

/-! ## Claim theorems -/

/-- C1: for every timer returned by `AfterFunc` and every sequence of
delivered stop/fire events, `Stop()` returns `true` exactly when the timer
is still `Active` (equivalently: neither a fire nor a successful stop has
happened); after a fire or a successful stop every further `Stop()` returns
`false` and leaves the state unchanged; the callback is invoked at most
once; and as soon as any event has been delivered, exactly one of firing and
stopping has occurred. -/
theorem c1_stop_contract (hasCb : Bool) (es : List TEvent) :
    ((timerStop (timerRun hasCb es)).1 = true ↔ (timerRun hasCb es).active = true) ∧
    ((timerRun hasCb es).active = true ↔
      (timerRun hasCb es).fired = 0 ∧ (timerRun hasCb es).stopped = 0) ∧
    ((timerRun hasCb es).active = false →
      timerStop (timerRun hasCb es) = (false, timerRun hasCb es)) ∧
    (timerRun hasCb es).fired + (timerRun hasCb es).stopped ≤ 1 ∧
    (es ≠ [] → (timerRun hasCb es).fired + (timerRun hasCb es).stopped = 1) ∧
    (timerRun hasCb es).runs ≤ 1 := by
  obtain ⟨h1, h2, h3, h4⟩ := timerRun_inv hasCb es
  refine ⟨?_, ?_, ?_, h2, ?_, ?_⟩
  · unfold timerStop
    cases ha : (timerRun hasCb es).active <;> simp [ha]
  · cases ha : (timerRun hasCb es).active
    · have h5 := (h4 ha).1
      constructor
      · intro h; exact absurd h (by simp)
      · intro ⟨hf, hs⟩; exact absurd h5 (by omega)
    · have h5 := h1 ha
      exact ⟨fun _ => ⟨h5.1, h5.2.1⟩, fun _ => rfl⟩
  · intro ha
    simp [timerStop, ha]
  · intro hne
    cases es with
    | nil => exact absurd rfl hne
    | cons e tl => exact (h4 (timerRun_nonempty_inactive hasCb e tl)).1
  · omega

/-- Closed witness for `c1_stop_contract`: after a fire followed by a stop,
exactly one successful transition has occurred. -/
theorem c1_stop_contract_witness :
    (timerRun true [TEvent.fire, TEvent.stop]).fired +
      (timerRun true [TEvent.fire, TEvent.stop]).stopped = 1 :=
  (c1_stop_contract true [TEvent.fire, TEvent.stop]).2.2.2.2.1 (by simp)

/-- C9: firing a wasm timer whose callback is nil is a guarded no-op (the
`if wt.f != nil` check skips invocation and the fire path completes), while
the stdlib backend hands the nil callback to the native scheduler, whose
fire path invokes it and panics — evaluating both backends at the nil
callback exhibits the divergence. -/
theorem c9_nil_callback_fire :
    wasmFireOutcome none = GoOutcome.ok ∧
    (timerFire false timerInit).active = false ∧
    (timerFire false timerInit).runs = 0 ∧
    serverFireOutcome none = GoOutcome.nilFuncPanic :=
  ⟨rfl, rfl, rfl, rfl⟩

/-- C10: the `int16` branch of `FormatTime` renders `%02d:%02d` of `v/60`
and `v%60` with Go truncating division, performs no range validation —
out-of-range and negative values are still rendered — and never returns the
empty string. -/
theorem c10_formatTime_minutes :
    serverFormatTime 0 (GoVal.i16 1500) = "25:00" ∧
    serverFormatTime 0 (GoVal.i16 0) = "00:00" ∧
    serverFormatTime 0 (GoVal.i16 (-61)) = "-1:-1" ∧
    ∀ reg v : ℤ, serverFormatTime reg (GoVal.i16 v) ≠ "" ∧
      serverFormatTime reg (GoVal.i16 v) =
        ⟨fmt02 (Int.tdiv v 60) ++ ':' :: fmt02 (Int.tmod v 60)⟩ := by
  refine ⟨by decide, by decide, by decide, ?_⟩
  intro reg v
  refine ⟨?_, rfl⟩
  intro h
  rw [show ("" : String) = ⟨[]⟩ from rfl, String.ext_iff] at h
  simp only [serverFormatTime] at h
  exact absurd (List.append_eq_nil.mp h).1 (fmt02_ne_nil _)

/-- Case analysis of `parseTimeCore` used by the `parseTime` claims. -/
theorem parseTimeCore_cases (l : List Char) :
    (∃ e, parseTimeCore l = Except.error e) ↔
      ((splitSep ':' l).length < 2 ∨
       hourBad ((splitSep ':' l).getD 0 []) ∨
       minuteBad ((splitSep ':' l).getD 1 [])) := by
  rcases hsp : splitSep ':' l with _ | ⟨p0, _ | ⟨p1, rest⟩⟩
  · simp only [parseTimeCore, hsp]
    exact iff_of_true ⟨TimeErr.format, rfl⟩ (Or.inl (by simp))
  · simp only [parseTimeCore, hsp]
    exact iff_of_true ⟨TimeErr.format, rfl⟩ (Or.inl (by simp))
  · simp only [parseTimeCore, hsp, List.getD_cons_zero, List.getD_cons_succ,
      List.length_cons]
    rcases hc0 : convInt p0 with _ | h
    · exact iff_of_true ⟨TimeErr.hours, rfl⟩ (Or.inr (Or.inl (by simp [hourBad, hc0])))
    · by_cases hr : h < 0 ∨ 23 < h
      · simp only [if_pos hr]
        exact iff_of_true ⟨TimeErr.hours, rfl⟩ (Or.inr (Or.inl (by simp [hourBad, hc0]; omega)))
      · simp only [if_neg hr]
        rcases hc1 : convInt p1 with _ | mi
        · exact iff_of_true ⟨TimeErr.minutes, rfl⟩
            (Or.inr (Or.inr (by simp [minuteBad, hc1])))
        · by_cases hmr : mi < 0 ∨ 59 < mi
          · simp only [if_pos hmr]
            exact iff_of_true ⟨TimeErr.minutes, rfl⟩
              (Or.inr (Or.inr (by simp [minuteBad, hc1]; omega)))
          · simp only [if_neg hmr]
            refine iff_of_false ?_ ?_
            · rintro ⟨e, he⟩
              exact Except.noConfusion he
            · rintro (hlen | hh | hm)
              · omega
              · simp [hourBad, hc0] at hh
                exact hr hh
              · simp [minuteBad, hc1] at hm
                exact hmr hm

/-- C5: boundary behaviour and exact failure condition of `ParseTime`:
`"23:59"` parses to 1439 and `"00:00"` to 0; `"24:00"` and `"00:60"` fail;
and in general a parse fails exactly when there are fewer than two fields,
or the hour field is non-numeric, negative, or above 23, or the minute
field is non-numeric, negative, or above 59. -/
theorem c5_parseTime_boundaries :
    parseTime "23:59" = Except.ok 1439 ∧
    parseTime "00:00" = Except.ok 0 ∧
    parseTime "24:00" = Except.error TimeErr.hours ∧
    parseTime "00:60" = Except.error TimeErr.minutes ∧
    ∀ s : String, (∃ e, parseTime s = Except.error e) ↔
      ((splitSep ':' s.data).length < 2 ∨
       hourBad ((splitSep ':' s.data).getD 0 []) ∨
       minuteBad ((splitSep ':' s.data).getD 1 [])) := by
  refine ⟨by rfl, by rfl, by rfl, by rfl, ?_⟩
  intro s
  exact parseTimeCore_cases s.data

/-- Closed witness for `c5_parseTime_boundaries`: its characterization shows
that `"7"` (a single field) fails to parse. -/
theorem c5_parseTime_boundaries_witness : ∃ e, parseTime "7" = Except.error e :=
  ((c5_parseTime_boundaries.2.2.2.2 "7").mpr (Or.inl (by decide)))

/-- C6: the seconds field never influences `ParseTime`: `"08:30:45"` and
`"08:30"` both parse to 510; appending `:abc` after the minute field leaves
the result unchanged whatever `abc` is; and every successful parse returns
`60*hours + minutes` of the first two fields. -/
theorem c6_parseTime_seconds_discarded :
    parseTime "08:30:45" = Except.ok 510 ∧
    parseTime "08:30" = Except.ok 510 ∧
    (∀ hh mm rest : List Char, ':' ∉ hh → ':' ∉ mm →
      parseTime ⟨hh ++ ':' :: (mm ++ ':' :: rest)⟩ = parseTime ⟨hh ++ ':' :: mm⟩) ∧
    ∀ (s : String) (v : ℤ), parseTime s = Except.ok v →
      ∃ h mi, convInt ((splitSep ':' s.data).getD 0 []) = some h ∧
        convInt ((splitSep ':' s.data).getD 1 []) = some mi ∧
        0 ≤ h ∧ h ≤ 23 ∧ 0 ≤ mi ∧ mi ≤ 59 ∧ v = h * 60 + mi := by
  refine ⟨by rfl, by rfl, ?_, ?_⟩
  · intro hh mm rest h1 h2
    show parseTimeCore (hh ++ ':' :: (mm ++ ':' :: rest)) = parseTimeCore (hh ++ ':' :: mm)
    have e1 : splitSep ':' (hh ++ ':' :: (mm ++ ':' :: rest)) =
        hh :: mm :: splitSep ':' rest := by
      rw [splitSep_append ':' hh _ h1, splitSep_append ':' mm rest h2]
    have e2 : splitSep ':' (hh ++ ':' :: mm) = [hh, mm] := by
      rw [splitSep_append ':' hh mm h1, splitSep_no_sep ':' mm h2]
    simp only [parseTimeCore, e1, e2]
  · intro s v hok
    replace hok : parseTimeCore s.data = Except.ok v := hok
    unfold parseTimeCore at hok
    rcases hsp : splitSep ':' s.data with _ | ⟨p0, _ | ⟨p1, rest⟩⟩ <;> rw [hsp] at hok
    · exact Except.noConfusion hok
    · exact Except.noConfusion hok
    · replace hok :
          (match convInt p0 with
           | none => (Except.error TimeErr.hours : Except TimeErr ℤ)
           | some h =>
             if h < 0 ∨ 23 < h then Except.error TimeErr.hours
             else
               match convInt p1 with
               | none => Except.error TimeErr.minutes
               | some mi =>
                 if mi < 0 ∨ 59 < mi then Except.error TimeErr.minutes
                 else Except.ok (h * 60 + mi)) = Except.ok v := hok
      rcases hc0 : convInt p0 with _ | h <;> rw [hc0] at hok
      · exact Except.noConfusion hok
      · replace hok :
            (if h < 0 ∨ 23 < h then (Except.error TimeErr.hours : Except TimeErr ℤ)
             else
               match convInt p1 with
               | none => Except.error TimeErr.minutes
               | some mi =>
                 if mi < 0 ∨ 59 < mi then Except.error TimeErr.minutes
                 else Except.ok (h * 60 + mi)) = Except.ok v := hok
        by_cases hr : h < 0 ∨ 23 < h
        · rw [if_pos hr] at hok
          exact Except.noConfusion hok
        · rw [if_neg hr] at hok
          rcases hc1 : convInt p1 with _ | mi <;> rw [hc1] at hok
          · exact Except.noConfusion hok
          · replace hok :
                (if mi < 0 ∨ 59 < mi then (Except.error TimeErr.minutes : Except TimeErr ℤ)
                 else Except.ok (h * 60 + mi)) = Except.ok v := hok
            by_cases hmr : mi < 0 ∨ 59 < mi
            · rw [if_pos hmr] at hok
              exact Except.noConfusion hok
            · rw [if_neg hmr] at hok
              push_neg at hr hmr
              refine ⟨h, mi, by simp [hsp, hc0], by simp [hsp, hc1], by omega, by omega,
                by omega, by omega, (Except.ok.inj hok).symm⟩

/-- Closed witness for `c6_parseTime_seconds_discarded`: concrete instance of
the seconds-independence equation. -/
theorem c6_parseTime_seconds_discarded_witness :
    parseTime ⟨['0', '8'] ++ ':' :: (['3', '0'] ++ ':' :: ['4', '5'])⟩ =
      parseTime ⟨['0', '8'] ++ ':' :: ['3', '0']⟩ :=
  c6_parseTime_seconds_discarded.2.2.1 ['0', '8'] ['3', '0'] ['4', '5']
    (by decide) (by decide)

/-- C2 counterexample: the additive-shift property fails at a reachable
register state.  `SetTimeZoneOffset(3000000)` stores 180,000,000 minutes in
the `int32` register without wrapping, but `time.Duration(offset) *
time.Minute` then overflows `int64` (1.08e19 > 2^63), so on instant 0 the
code renders `00:25:26` while the claimed shift by the register's minutes
gives `00:00:00`. -/
theorem c2_formatTime_offset_counterexample :
    tzStore 3000000 = 180000000 ∧
    serverFormatTime (tzStore 3000000) (GoVal.i64 0) = "00:25:26" ∧
    specShiftedTime (tzStore 3000000) 0 = "00:00:00" ∧
    serverFormatTime (tzStore 3000000) (GoVal.i64 0) ≠ specShiftedTime (tzStore 3000000) 0 := by
  refine ⟨by rfl, by rfl, by rfl, by decide⟩

/-- C2 (amended): with the register set by `SetTimeZoneOffset(h)`,
`FormatTime` on instant `1609459200e9` renders `00:00:00` for `h = 0`,
`21:00:00` for `h = -3` and `01:00:00` for `h = +1`; and `FormatTime` on an
`int64` instant renders the clock fields of the instant shifted additively
by the register's minutes before extraction whenever the register's minute
shift fits an `int64` duration (|minutes| at most 153,722,867 — beyond
that the Go `Duration` product wraps and the shift property fails, see the
counterexample). -/
theorem c2_formatTime_offset :
    serverFormatTime (tzStore 0) (GoVal.i64 1609459200000000000) = "00:00:00" ∧
    serverFormatTime (tzStore (-3)) (GoVal.i64 1609459200000000000) = "21:00:00" ∧
    serverFormatTime (tzStore 1) (GoVal.i64 1609459200000000000) = "01:00:00" ∧
    ∀ reg v : ℤ, -153722867 ≤ reg → reg ≤ 153722867 →
      serverFormatTime reg (GoVal.i64 v) = specShiftedTime reg v := by
  refine ⟨by rfl, by rfl, by rfl, ?_⟩
  intro reg v h1 h2
  have hw : wrap64 (reg * 60000000000) = reg * 60000000000 :=
    wrap64_eq_self (by omega) (by omega)
  simp only [serverFormatTime, formatTimeInt64, specShiftedTime, hw]

/-- Closed witness for `c2_formatTime_offset`: concrete instance of the
shifted-clock equation. -/
theorem c2_formatTime_offset_witness :
    serverFormatTime 300 (GoVal.i64 123456789) = specShiftedTime 300 123456789 :=
  c2_formatTime_offset.2.2.2 300 123456789 (by norm_num) (by norm_num)

/-- C8 counterexample: at `a = -2^63`, `b = 2^63 - 1` the Go subtraction
wraps, so `DaysBetween` differs from the truncating division of the
mathematical difference `b - a`. -/
theorem c8_daysBetween_counterexample :
    daysBetween (-(2 ^ 63)) (2 ^ 63 - 1) = 0 ∧
    Int.tdiv ((2 ^ 63 - 1) - -(2 ^ 63)) 86400000000000 = 213503 ∧
    daysBetween (-(2 ^ 63)) (2 ^ 63 - 1) ≠
      Int.tdiv ((2 ^ 63 - 1) - -(2 ^ 63)) 86400000000000 := by
  decide

/-- C8 (amended): `DaysBetween(a,b)` is the truncating division of the
int64-wrapped difference, hence equals `trunc((b-a)/day)` whenever `b - a`
fits in `int64`; `DaysBetween(a,a) = 0` always; and for `int64` inputs whose
difference is an exact multiple of a day, `DaysBetween(a,b) =
-DaysBetween(b,a)`.  (The function reads no register by construction.) -/
theorem c8_daysBetween_amended :
    (∀ a b : ℤ, -(2 ^ 63) ≤ b - a → b - a < 2 ^ 63 →
      daysBetween a b = Int.tdiv (b - a) 86400000000000) ∧
    (∀ a : ℤ, daysBetween a a = 0) ∧
    ∀ a b : ℤ, -(2 ^ 63) ≤ a → a < 2 ^ 63 → -(2 ^ 63) ≤ b → b < 2 ^ 63 →
      (b - a) % 86400000000000 = 0 → daysBetween a b = -daysBetween b a := by
  refine ⟨?_, ?_, ?_⟩
  · intro a b h1 h2
    unfold daysBetween
    rw [wrap64_eq_self h1 h2]
  · intro a
    unfold daysBetween
    rw [sub_self, wrap64_zero]
    rfl
  · intro a b ha1 ha2 hb1 hb2 hdvd
    have hne2 : b - a ≠ -(2 ^ 63) := by
      intro he
      rw [he] at hdvd
      exact absurd hdvd (by decide)
    unfold daysBetween
    rcases le_or_lt (2 ^ 63) (b - a) with hge | hlt
    · have e1 : wrap64 (b - a) = b - a - 2 ^ 64 := by
        calc wrap64 (b - a) = wrap64 (b - a - 2 ^ 64) := (wrap64_sub_pow _).symm
          _ = b - a - 2 ^ 64 := wrap64_eq_self (by omega) (by omega)
      have e2 : wrap64 (a - b) = -(b - a - 2 ^ 64) := by
        calc wrap64 (a - b) = wrap64 (a - b + 2 ^ 64) := (wrap64_add_pow _).symm
          _ = a - b + 2 ^ 64 := wrap64_eq_self (by omega) (by omega)
          _ = -(b - a - 2 ^ 64) := by ring
      rw [e1, e2, Int.neg_tdiv, neg_neg]
    · rcases le_or_lt (-(2 ^ 63)) (b - a) with hmid | hlow
      · have e1 : wrap64 (b - a) = b - a := wrap64_eq_self hmid hlt
        have e2 : wrap64 (a - b) = -(b - a) := by
          have : a - b = -(b - a) := by ring
          rw [this]
          exact wrap64_eq_self (by omega) (by omega)
        rw [e1, e2, Int.neg_tdiv, neg_neg]
      · have e1 : wrap64 (b - a) = b - a + 2 ^ 64 := by
          calc wrap64 (b - a) = wrap64 (b - a + 2 ^ 64) := (wrap64_add_pow _).symm
            _ = b - a + 2 ^ 64 := wrap64_eq_self (by omega) (by omega)
        have e2 : wrap64 (a - b) = -(b - a + 2 ^ 64) := by
          calc wrap64 (a - b) = wrap64 (a - b - 2 ^ 64) := (wrap64_sub_pow _).symm
            _ = a - b - 2 ^ 64 := wrap64_eq_self (by omega) (by omega)
            _ = -(b - a + 2 ^ 64) := by ring
        rw [e1, e2, Int.neg_tdiv, neg_neg]

/-- Closed witness for `c8_daysBetween_amended`: antisymmetry at one day. -/
theorem c8_daysBetween_amended_witness :
    daysBetween 0 86400000000000 = -daysBetween 86400000000000 0 :=
  c8_daysBetween_amended.2.2 0 86400000000000 (by decide) (by decide) (by decide)
    (by decide) (by decide)

/-- C7 counterexample: `"1111-99-99"` passes the 10-chars-and-dashes shape
check, yet the stdlib backend's `FormatDate` rejects it to `""` because its
passthrough is decided by a full `time.Parse`, not by shape alone. -/
theorem c7_formatDate_counterexample :
    shape10 "1111-99-99" = true ∧
    serverFormatDate 0 (GoVal.str "1111-99-99") = "" ∧
    serverFormatDate 0 (GoVal.str "1111-99-99") ≠ "1111-99-99" := by
  refine ⟨by rfl, by rfl, by decide⟩

/-- C7 (amended): the shape-only passthrough holds in the wasm backend: a
string input is returned unchanged exactly when it is 10 characters with
dashes at positions 4 and 7, and `""` otherwise.  In the stdlib backend the
passthrough is instead decided by a full `YYYY-MM-DD` re-parse, which is
strictly stronger than the shape check. -/
theorem c7_formatDate_passthrough_amended :
    (∀ (reg : ℤ) (s : String),
      clientFormatDate reg (GoVal.str s) = if shape10 s then s else "") ∧
    (∀ (reg : ℤ) (s : String),
      serverFormatDate reg (GoVal.str s) = if (goParseDate s).isSome then s else "") ∧
    ∀ s : String, (goParseDate s).isSome = true → shape10 s = true := by
  refine ⟨fun _ _ => rfl, fun _ _ => rfl, ?_⟩
  intro s hsome
  unfold goParseDate at hsome
  split at hsome
  · rename_i y1 y2 y3 y4 s1 m1 m2 s2 d1 d2 heq
    split at hsome
    · rename_i hcond
      unfold shape10
      rw [heq]
      simp [hcond.1, hcond.2.1]
    · exact absurd hsome (by simp)
  · exact absurd hsome (by simp)

/-- Closed witness for `c7_formatDate_passthrough_amended`: a string that the
native backend passes through indeed has the valid shape. -/
theorem c7_formatDate_passthrough_amended_witness : shape10 "2024-02-29" = true :=
  c7_formatDate_passthrough_amended.2.2 "2024-02-29" (by rfl)

/-- C3 counterexample: `"1600-01-01"` is a valid `YYYY-MM-DD` string, but its
midnight instant does not fit `int64` nanoseconds, so `Time.UnixNano` wraps
and the round-trip through `FormatDate` (offset 0) returns `"2184-07-20"`,
not the original string. -/
theorem c3_roundtrip_counterexample :
    parseDateServer "1600-01-01" = Except.ok 6770648073709551616 ∧
    serverFormatDate (tzStore 0) (GoVal.i64 6770648073709551616) = "2184-07-20" ∧
    ("2184-07-20" : String) ≠ "1600-01-01" := by
  refine ⟨by rfl, by rfl, by decide⟩

/-- C3 (amended): for every valid `YYYY-MM-DD` string whose midnight UTC
instant is representable in `int64` nanoseconds, `ParseDate` returns exactly
that instant and `FormatDate` (register 0) maps it back to the original
string. -/
theorem c3_roundtrip_amended :
    ∀ (s : String) (y m d : ℕ), goParseDate s = some (y, m, d) →
      -(2 ^ 63) ≤ dateToNano y m d → dateToNano y m d < 2 ^ 63 →
      parseDateServer s = Except.ok (dateToNano y m d) ∧
      serverFormatDate (tzStore 0) (GoVal.i64 (dateToNano y m d)) = s := by
  intro s y m d hp hlo hhi
  constructor
  · unfold parseDateServer
    rw [hp]
    show Except.ok (wrap64 (dateToNano y m d)) = Except.ok (dateToNano y m d)
    rw [wrap64_eq_self hlo hhi]
  · -- decompose the successful parse
    unfold goParseDate at hp
    split at hp
    case h_2 => exact Option.noConfusion hp
    rename_i y1 y2 y3 y4 s1 m1 m2 s2 d1 d2 heq
    split at hp
    case isFalse => exact Option.noConfusion hp
    rename_i hcond1
    simp only [] at hp
    split at hp
    case isFalse => exact Option.noConfusion hp
    rename_i hcond2
    have hinj := Option.some.inj hp
    have hy_eq : digitVal y1 * 1000 + digitVal y2 * 100 + digitVal y3 * 10 + digitVal y4 = y :=
      congrArg Prod.fst hinj
    have hm_eq : digitVal m1 * 10 + digitVal m2 = m :=
      congrArg (fun p => p.2.1) hinj
    have hd_eq : digitVal d1 * 10 + digitVal d2 = d :=
      congrArg (fun p => p.2.2) hinj
    obtain ⟨hdash1, hdash2, hall⟩ := hcond1
    simp only [List.all_cons, List.all_nil, Bool.and_eq_true, and_true] at hall
    obtain ⟨hgy1, hgy2, hgy3, hgy4, hgm1, hgm2, hgd1, hgd2⟩ := hall
    have hvy1 := digitVal_lt hgy1
    have hvy2 := digitVal_lt hgy2
    have hvy3 := digitVal_lt hgy3
    have hvy4 := digitVal_lt hgy4
    have hvm1 := digitVal_lt hgm1
    have hvm2 := digitVal_lt hgm2
    have hvd1 := digitVal_lt hgd1
    have hvd2 := digitVal_lt hgd2
    rw [hy_eq, hm_eq, hd_eq] at hcond2
    have hy9999 : y ≤ 9999 := by omega
    have hml := monthLen_le (isLeap y) m
    -- evaluate the format pipeline
    simp only [serverFormatDate, formatDateInt64]
    have ht0 : tzStore 0 = 0 := by decide
    rw [ht0]
    have hdur : wrap64 (0 * 60000000000) = 0 := by rw [zero_mul, wrap64_zero]
    rw [hdur, add_zero]
    have hsec : Int.fdiv (dateToNano y m d) 1000000000 =
        ((dateToAbsDay y m d : ℤ) - (epochAbsDay : ℤ)) * 86400 := by
      unfold dateToNano
      rw [show (86400000000000 : ℤ) = 86400 * 1000000000 by norm_num, ← mul_assoc]
      exact Int.mul_fdiv_cancel _ (by norm_num)
    rw [hsec]
    rw [Int.mul_fdiv_cancel _ (by norm_num : (86400 : ℤ) ≠ 0)]
    have habs : ((epochAbsDay : ℕ) : ℤ) + ((dateToAbsDay y m d : ℤ) - (epochAbsDay : ℤ)) =
        ((dateToAbsDay y m d : ℕ) : ℤ) := by ring
    rw [habs, Int.toNat_natCast]
    rw [fromAbsDay_dateToAbsDay y m d hy9999 (by omega) (by omega) (by omega) (by omega)]
    -- render back to the original characters
    unfold renderYMDn
    rw [String.ext_iff]
    show pad4 y ++ '-' :: pad2 m ++ '-' :: pad2 d = s.data
    rw [heq]
    rw [← hy_eq, ← hm_eq, ← hd_eq]
    rw [pad4_digits _ _ _ _ hvy1 hvy2 hvy3 hvy4, pad2_digits _ _ hvm1 hvm2,
      pad2_digits _ _ hvd1 hvd2]
    rw [digitCh_digitVal hgy1, digitCh_digitVal hgy2, digitCh_digitVal hgy3,
      digitCh_digitVal hgy4, digitCh_digitVal hgm1, digitCh_digitVal hgm2,
      digitCh_digitVal hgd1, digitCh_digitVal hgd2]
    rw [hdash1, hdash2]
    rfl

/-- Closed witness for `c3_roundtrip_amended`: the round-trip at
`"2024-02-29"`. -/
theorem c3_roundtrip_amended_witness :
    parseDateServer "2024-02-29" = Except.ok (dateToNano 2024 2 29) ∧
    serverFormatDate (tzStore 0) (GoVal.i64 (dateToNano 2024 2 29)) = "2024-02-29" :=
  c3_roundtrip_amended "2024-02-29" 2024 2 29 (by rfl) (by decide) (by decide)

/-! ## Helper lemmas: integer-year leap rule and field rendering -/

theorem isLeapZ_natCast (y : ℕ) : isLeapZ (y : ℤ) = isLeap y := by
  rw [Bool.eq_iff_iff]
  simp only [isLeapZ, isLeap, Bool.or_eq_true, Bool.and_eq_true, beq_iff_eq,
    Bool.not_eq_true', beq_eq_false_iff_ne, ne_eq]
  omega

theorem validYMD_natCast (y m d : ℕ) :
    validYMD (y : ℤ) (m : ℤ) (d : ℤ) ↔
      1 ≤ m ∧ m ≤ 12 ∧ 1 ≤ d ∧ d ≤ monthLen (isLeap y) m := by
  unfold validYMD
  rw [isLeapZ_natCast, Int.toNat_natCast]
  constructor
  · rintro ⟨a, b, c, e⟩
    exact ⟨by exact_mod_cast a, by exact_mod_cast b, by exact_mod_cast c, by exact_mod_cast e⟩
  · rintro ⟨a, b, c, e⟩
    exact ⟨by exact_mod_cast a, by exact_mod_cast b, by exact_mod_cast c, by exact_mod_cast e⟩

theorem fmt04_neg_head (n : ℤ) (h : n < 0) :
    fmt04 n = '-' :: (List.replicate (3 - (natDigits (-n).toNat).length) '0' ++
      natDigits (-n).toNat) := by
  unfold fmt04
  rw [if_pos h]

theorem fmt04_big_len (n : ℤ) (h : 10000 ≤ n) : 5 ≤ (fmt04 n).length := by
  unfold fmt04
  rw [if_neg (by omega), if_neg (by omega)]
  exact natDigits_len_ge5 (by omega)

/-- C4: for every `YYYY-MM-DD`-shaped digit string whose fields do not
denote an existing calendar date, both `ParseDate` implementations return an
error and never an auto-corrected instant.  The wasm backend is proved for
every behaviour of the host `Date` parser (`jsParse`) as long as the host
field accessors report an existing calendar date (`jsFields`): the code's
re-render-and-compare step then necessarily mismatches the invalid input. -/
theorem c4_parseDate_rejects_nonexistent :
    ∀ (jsParse : String → Option ℤ) (jsFields : ℤ → ℤ × ℤ × ℤ),
      (∀ t, validYMD (jsFields t).1 (jsFields t).2.1 (jsFields t).2.2) →
      ∀ s : String, digitShape10 s →
        ¬validYMD (strFields s).1 (strFields s).2.1 (strFields s).2.2 →
        (∃ e, parseDateClient jsParse jsFields s = Except.error e) ∧
        parseDateServer s = Except.error DateErr.malformed := by
  intro jsP jsF hval s hshape hinval
  unfold digitShape10 at hshape
  split at hshape
  case h_2 => exact absurd hshape (by simp)
  rename_i y1 y2 y3 y4 s1 m1 m2 s2 d1 d2 heq
  obtain ⟨hdash1, hdash2, hall⟩ := hshape
  have halls := hall
  simp only [List.all_cons, List.all_nil, Bool.and_eq_true, and_true] at hall
  obtain ⟨hgy1, hgy2, hgy3, hgy4, hgm1, hgm2, hgd1, hgd2⟩ := hall
  have hvy1 := digitVal_lt hgy1
  have hvy2 := digitVal_lt hgy2
  have hvy3 := digitVal_lt hgy3
  have hvy4 := digitVal_lt hgy4
  have hvm1 := digitVal_lt hgm1
  have hvm2 := digitVal_lt hgm2
  have hvd1 := digitVal_lt hgd1
  have hvd2 := digitVal_lt hgd2
  have hsf : strFields s =
      (((digitVal y1 * 1000 + digitVal y2 * 100 + digitVal y3 * 10 + digitVal y4 : ℕ) : ℤ),
       ((digitVal m1 * 10 + digitVal m2 : ℕ) : ℤ),
       ((digitVal d1 * 10 + digitVal d2 : ℕ) : ℤ)) := by
    unfold strFields
    rw [heq]
  rw [hsf] at hinval
  have hinvnat : ¬(1 ≤ digitVal m1 * 10 + digitVal m2 ∧ digitVal m1 * 10 + digitVal m2 ≤ 12 ∧
      1 ≤ digitVal d1 * 10 + digitVal d2 ∧
      digitVal d1 * 10 + digitVal d2 ≤
        monthLen (isLeap (digitVal y1 * 1000 + digitVal y2 * 100 + digitVal y3 * 10 +
          digitVal y4)) (digitVal m1 * 10 + digitVal m2)) := by
    intro hc
    exact hinval ((validYMD_natCast _ _ _).mpr hc)
  refine ⟨?_, ?_⟩
  · -- wasm backend
    have hsh10 : shape10 s = true := by
      unfold shape10
      rw [heq]
      simp [hdash1, hdash2]
    unfold parseDateClient
    rw [if_pos hsh10]
    cases hjs : jsP s with
    | none => exact ⟨DateErr.invalidDate, rfl⟩
    | some t =>
      have hvt := hval t
      obtain ⟨hM1, hM2, hD1, hD2⟩ := hvt
      have hmlz := monthLen_le (isLeapZ (jsF t).1) (jsF t).2.1.toNat
      have hfm : fmt02 (jsF t).2.1 = pad2 (jsF t).2.1.toNat :=
        fmt02_of_lt100 _ (by omega) (by omega)
      have hfd : fmt02 (jsF t).2.2 = pad2 (jsF t).2.2.toNat :=
        fmt02_of_lt100 _ (by omega) (by omega)
      have hne : (⟨fmt04 (jsF t).1 ++ '-' :: fmt02 (jsF t).2.1 ++
          '-' :: fmt02 (jsF t).2.2⟩ : String) ≠ s := by
        intro he
        rw [String.ext_iff] at he
        rw [heq] at he
        by_cases hYneg : (jsF t).1 < 0
        · rw [fmt04_neg_head _ hYneg] at he
          simp only [List.cons_append, List.append_assoc, List.cons.injEq] at he
          have h1 : ('-' : Char) = y1 := he.1
          rw [← h1] at hgy1
          exact absurd hgy1 (by decide)
        · by_cases hYbig : 10000 ≤ (jsF t).1
          · rw [hfm, hfd] at he
            have hlen := congrArg List.length he
            have h5 := fmt04_big_len _ hYbig
            simp only [List.length_append, List.length_cons, pad2, List.length_nil] at hlen
            omega
          · have hfy : fmt04 (jsF t).1 = pad4 (jsF t).1.toNat :=
              fmt04_of_lt10000 _ (by omega) (by omega)
            rw [hfy, hfm, hfd] at he
            simp only [pad4, pad2, List.cons_append, List.nil_append,
              List.cons.injEq, and_true] at he
            obtain ⟨e1, e2, e3, e4, _, e5, e6, _, e7, e8⟩ := he
            have q1 : digitVal y1 = (jsF t).1.toNat / 1000 := by
              rw [← e1]; exact digitVal_digitCh _ (by omega)
            have q2 : digitVal y2 = (jsF t).1.toNat / 100 % 10 := by
              rw [← e2]; exact digitVal_digitCh _ (by omega)
            have q3 : digitVal y3 = (jsF t).1.toNat / 10 % 10 := by
              rw [← e3]; exact digitVal_digitCh _ (by omega)
            have q4 : digitVal y4 = (jsF t).1.toNat % 10 := by
              rw [← e4]; exact digitVal_digitCh _ (by omega)
            have r1 : digitVal m1 = (jsF t).2.1.toNat / 10 := by
              rw [← e5]; exact digitVal_digitCh _ (by omega)
            have r2 : digitVal m2 = (jsF t).2.1.toNat % 10 := by
              rw [← e6]; exact digitVal_digitCh _ (by omega)
            have t1 : digitVal d1 = (jsF t).2.2.toNat / 10 := by
              rw [← e7]; exact digitVal_digitCh _ (by omega)
            have t2 : digitVal d2 = (jsF t).2.2.toNat % 10 := by
              rw [← e8]; exact digitVal_digitCh _ (by omega)
            have hYval : digitVal y1 * 1000 + digitVal y2 * 100 + digitVal y3 * 10 +
                digitVal y4 = (jsF t).1.toNat := by
              rw [q1, q2, q3, q4]; omega
            have hMval : digitVal m1 * 10 + digitVal m2 = (jsF t).2.1.toNat := by
              rw [r1, r2]; omega
            have hDval : digitVal d1 * 10 + digitVal d2 = (jsF t).2.2.toNat := by
              rw [t1, t2]; omega
            have hYcast : (((jsF t).1.toNat : ℕ) : ℤ) = (jsF t).1 :=
              Int.toNat_of_nonneg (by omega)
            have hLeapEq : isLeap ((jsF t).1.toNat) = isLeapZ (jsF t).1 := by
              rw [← isLeapZ_natCast, hYcast]
            apply hinvnat
            rw [hYval, hMval, hDval, hLeapEq]
            refine ⟨by omega, by omega, by omega, by omega⟩
      refine ⟨DateErr.corrected, ?_⟩
      show (if (⟨fmt04 (jsF t).1 ++ '-' :: fmt02 (jsF t).2.1 ++
          '-' :: fmt02 (jsF t).2.2⟩ : String) = s then
            Except.ok (wrap64 (t * 1000000)) else Except.error DateErr.corrected) =
          Except.error DateErr.corrected
      rw [if_neg hne]
  · -- stdlib backend
    have hgnone : goParseDate s = none := by
      unfold goParseDate
      rw [heq]
      show (if s1 = '-' ∧ s2 = '-' ∧ ([y1, y2, y3, y4, m1, m2, d1, d2].all isDigitCh) = true
          then
            (if 1 ≤ digitVal m1 * 10 + digitVal m2 ∧ digitVal m1 * 10 + digitVal m2 ≤ 12 ∧
                1 ≤ digitVal d1 * 10 + digitVal d2 ∧
                digitVal d1 * 10 + digitVal d2 ≤
                  monthLen (isLeap (digitVal y1 * 1000 + digitVal y2 * 100 + digitVal y3 * 10 +
                    digitVal y4)) (digitVal m1 * 10 + digitVal m2) then
              some (digitVal y1 * 1000 + digitVal y2 * 100 + digitVal y3 * 10 + digitVal y4,
                digitVal m1 * 10 + digitVal m2, digitVal d1 * 10 + digitVal d2)
            else none)
          else none) = none
      rw [if_pos ⟨hdash1, hdash2, halls⟩, if_neg hinvnat]
    unfold parseDateServer
    rw [hgnone]

/-- Closed witness for `c4_parseDate_rejects_nonexistent`: with a host that
reports Invalid Date for everything and always-valid field accessors, the
input `"2024-02-30"` is rejected by both backends. -/
theorem c4_parseDate_rejects_nonexistent_witness :
    (∃ e, parseDateClient (fun _ => none) (fun _ => (2000, 1, 1)) "2024-02-30" =
      Except.error e) ∧
    parseDateServer "2024-02-30" = Except.error DateErr.malformed :=
  c4_parseDate_rejects_nonexistent (fun _ => none) (fun _ => (2000, 1, 1))
    (fun _ => (by unfold validYMD; decide : validYMD 2000 1 1))
    "2024-02-30" (⟨rfl, rfl, rfl⟩ : digitShape10 "2024-02-30")
    (by unfold validYMD; decide)
